import Mathlib

/-!
Verification of ColorHoster against its specification.

This file shallowly embeds the parts of the ColorHoster source that the
verified claims are about:

* `src/chunks.rs` — the differential chunker (`ChunksChanges::next`,
  `chunk_changed`), embedded as `chunksNext` / `chunk_changed` over lists;
* `src/keyboard/mod.rs` — the actor's `merge_colors` coalescing;
* `src/config.rs` — the effect-flag computation, `count_leds`, `extract_led`;
* `src/device.rs` — one step of the HID reader task (the `retain` loop);
* `src/keyboard.rs` — the controller's cached-state updates
  (`update_colors`, `update_color`, `update_effect`, `update_speed`,
  `update_brightness`, `load_state`) and the save/load round trip;
* `src/handlers.rs` — the `SetCustomMode` request handler;
* `src/utils.rs` — the `read_str` helper.

Machine integers are embedded as `Nat`/`Int` with explicit wrapping where
the source casts (`as u8`, `usize` subtraction).  Rust panics
(out-of-bounds indexing, `usize` underflow) are modelled by `Option`
results, `none` standing for abnormal termination.  Colour-space values
which the source processes through `f32` are modelled over `ℚ` with the
exact textbook conversion formulas (see the doc comments of the
conversion functions).
-/

/-! ## Differential chunker (`src/chunks.rs`) -/

/-- The `find` step of `ChunksChanges::next` (src/chunks.rs:16-19),
scanning indices `off, off+1, ...` for the first mismatch between `v` and
`reference`.  `fuel` makes the scan structurally recursive; it is always
called with `fuel = v.length - off`, which covers the whole remaining
slice. -/
def findDiffAux {α : Type} [DecidableEq α] (v reference : List α) :
    Nat → Nat → Option Nat
  | 0, _ => none
  | fuel + 1, off =>
    if off < v.length then
      if v[off]? ≠ reference[off]? then some off
      else findDiffAux v reference fuel (off + 1)
    else none

/-- The smallest index `i ≥ off` with `i < v.length` and
`v[i] ≠ reference[i]`, if any. -/
def findDiffIdx {α : Type} [DecidableEq α] (v reference : List α) (off : Nat) : Option Nat :=
  findDiffAux v reference (v.length - off) off

/-- The `rfind` step of `ChunksChanges::next` (src/chunks.rs:23-27): the
largest `j < w` with `v[start+j] ≠ ref[start+j]`. -/
def lastDiffIdx {α : Type} [DecidableEq α] (v reference : List α) (start : Nat) :
    Nat → Option Nat
  | 0 => none
  | w + 1 =>
    if v[start + w]? ≠ reference[start + w]? then some w
    else lastDiffIdx v reference start w

/-- One call of `ChunksChanges::next` (src/chunks.rs:11-34).  Returns the
yielded `(start, slice)` together with the iterator's new `offset`.  The
source's `.unwrap()` on the `rfind` cannot fail; its (unreachable)
failure is mapped to `none`. -/
def chunksNext {α : Type} [DecidableEq α] (v reference : List α) (cs off : Nat) :
    Option (Nat × List α × Nat) :=
  if v.length ≤ off then none
  else
    match findDiffIdx v reference off with
    | none => none
    | some start =>
      let maxEnd := min (start + cs) v.length
      match lastDiffIdx v reference start (maxEnd - start) with
      | none => none
      | some count => some (start, (v.drop start).take (count + 1), maxEnd)

/-- Driving the iterator to exhaustion.  `fuel` bounds the number of
steps; since every step advances `offset` by at least one (for a positive
chunk size), `v.length + 1` steps always suffice. -/
def chunksFrom {α : Type} [DecidableEq α] (v reference : List α) (cs : Nat) :
    Nat → Nat → List (Nat × List α)
  | 0, _ => []
  | fuel + 1, off =>
    match chunksNext v reference cs off with
    | none => []
    | some (s, c, off2) => (s, c) :: chunksFrom v reference cs fuel off2

/-- `<[T] as ChunkChanged>::chunk_changed` (src/chunks.rs:43-60): the full
list of `(offset, slice)` chunks produced by the iterator. -/
def chunk_changed {α : Type} [DecidableEq α] (v : List α) (cs : Nat) (reference : List α) :
    List (Nat × List α) :=
  chunksFrom v reference cs (v.length + 1) 0

/-- `slice[off..off+chunk.len()].copy_from_slice(chunk)` on a list:
replace the elements of `base` at positions `[off, off + chunk.length)`
by `chunk`. -/
def writeAt {α : Type} (base : List α) (off : Nat) (chunk : List α) : List α :=
  base.take off ++ chunk ++ base.drop (off + chunk.length)

/-- Overlay a list of `(offset, slice)` chunks onto a base vector, in
order. -/
def overlay {α : Type} (base : List α) (chunks : List (Nat × List α)) : List α :=
  chunks.foldl (fun acc oc => writeAt acc oc.1 oc.2) base

/-- A chunk `(s, c)` is well-placed for `v`: it lies inside `v` and its
content agrees with `v` on the covered positions. -/
def ChunkGood {α : Type} (v : List α) (oc : Nat × List α) : Prop :=
  oc.1 + oc.2.length ≤ v.length ∧ ∀ j, j < oc.2.length → oc.2[j]? = v[oc.1 + j]?

/-- Position `i` is covered by one of the chunks. -/
def Covers {α : Type} (chunks : List (Nat × List α)) (i : Nat) : Prop :=
  ∃ oc ∈ chunks, oc.1 ≤ i ∧ i < oc.1 + oc.2.length

theorem findDiffAux_some {α : Type} [DecidableEq α] {v reference : List α} :
    ∀ {fuel off s : Nat}, findDiffAux v reference fuel off = some s →
      off ≤ s ∧ s < v.length ∧ v[s]? ≠ reference[s]? := by
  intro fuel
  induction fuel with
  | zero => intro off s h; simp [findDiffAux] at h
  | succ n ih =>
    intro off s h
    simp only [findDiffAux] at h
    split at h
    · split at h
      · rename_i hlt hne
        cases h
        exact ⟨Nat.le_refl _, hlt, hne⟩
      · have := ih h
        exact ⟨by omega, this.2.1, this.2.2⟩
    · exact absurd h (by simp)

theorem findDiffAux_le {α : Type} [DecidableEq α] {v reference : List α} :
    ∀ {fuel off i : Nat}, off ≤ i → i < v.length → i < off + fuel →
      v[i]? ≠ reference[i]? →
      ∃ s, findDiffAux v reference fuel off = some s ∧ s ≤ i := by
  intro fuel
  induction fuel with
  | zero => intro off i h1 h2 h3; omega
  | succ n ih =>
    intro off i h1 h2 h3 hne
    by_cases heq : off = i
    · subst heq
      refine ⟨off, ?_, Nat.le_refl _⟩
      simp only [findDiffAux]
      rw [if_pos h2, if_pos hne]
    · by_cases hd : v[off]? ≠ reference[off]?
      · refine ⟨off, ?_, h1⟩
        simp only [findDiffAux]
        rw [if_pos (show off < v.length by omega), if_pos hd]
      · obtain ⟨s, hs, hsle⟩ := ih (show off + 1 ≤ i by omega) h2 (by omega) hne
        refine ⟨s, ?_, hsle⟩
        simp only [findDiffAux]
        rw [if_pos (show off < v.length by omega), if_neg hd]
        exact hs

theorem findDiffIdx_some {α : Type} [DecidableEq α] {v reference : List α} {off s : Nat}
    (h : findDiffIdx v reference off = some s) :
    off ≤ s ∧ s < v.length ∧ v[s]? ≠ reference[s]? :=
  findDiffAux_some h

theorem findDiffIdx_le {α : Type} [DecidableEq α] {v reference : List α} {off i : Nat}
    (h1 : off ≤ i) (h2 : i < v.length) (hne : v[i]? ≠ reference[i]?) :
    ∃ s, findDiffIdx v reference off = some s ∧ s ≤ i :=
  findDiffAux_le h1 h2 (by omega) hne

theorem lastDiffIdx_some {α : Type} [DecidableEq α] {v reference : List α} {start : Nat} :
    ∀ {w c : Nat}, lastDiffIdx v reference start w = some c →
      c < w ∧ v[start + c]? ≠ reference[start + c]? := by
  intro w
  induction w with
  | zero => intro c h; simp [lastDiffIdx] at h
  | succ n ih =>
    intro c h
    simp only [lastDiffIdx] at h
    split at h
    · rename_i hne
      cases h
      exact ⟨Nat.lt_succ_self _, hne⟩
    · have := ih h
      exact ⟨by omega, this.2⟩

theorem lastDiffIdx_ge {α : Type} [DecidableEq α] {v reference : List α} (start : Nat) :
    ∀ (w j : Nat), j < w → v[start + j]? ≠ reference[start + j]? →
      ∃ c, lastDiffIdx v reference start w = some c ∧ j ≤ c := by
  intro w
  induction w with
  | zero => intro j h; omega
  | succ n ih =>
    intro j hj hne
    by_cases hd : v[start + n]? ≠ reference[start + n]?
    · exact ⟨n, by simp [lastDiffIdx, hd], by omega⟩
    · have hjn : j < n := by
        rcases Nat.lt_succ_iff_lt_or_eq.mp hj with h | h
        · exact h
        · subst h; exact absurd hne hd
      obtain ⟨c, hc, hle⟩ := ih j hjn hne
      refine ⟨c, ?_, hle⟩
      simp only [ne_eq, not_not] at hd
      simp [lastDiffIdx, hd, hc]

theorem chunksNext_good {α : Type} [DecidableEq α] {v reference : List α} {cs off : Nat}
    {s : Nat} {c : List α} {off2 : Nat}
    (hcs : 0 < cs) (h : chunksNext v reference cs off = some (s, c, off2)) :
    ChunkGood v (s, c) ∧ off < off2 ∧ off2 ≤ v.length := by
  simp only [chunksNext] at h
  split at h
  · exact absurd h (by simp)
  · rename_i hoff
    match hf : findDiffIdx v reference off with
    | none => rw [hf] at h; exact absurd h (by simp)
    | some start =>
      rw [hf] at h
      simp only at h
      obtain ⟨hos, hsl, _⟩ := findDiffIdx_some hf
      match hl : lastDiffIdx v reference start (min (start + cs) v.length - start) with
      | none => rw [hl] at h; exact absurd h (by simp)
      | some count =>
        rw [hl] at h
        obtain ⟨hcw, _⟩ := lastDiffIdx_some hl
        cases h
        have hlen : s + (count + 1) ≤ v.length := by omega
        constructor
        · constructor
          · simp only [List.length_take, List.length_drop]
            omega
          · intro j hj
            simp only [List.length_take, List.length_drop, lt_min_iff] at hj
            rw [List.getElem?_take_of_lt hj.1, List.getElem?_drop]
        · omega

theorem chunksFrom_good {α : Type} [DecidableEq α] {v reference : List α} {cs : Nat}
    (hcs : 0 < cs) :
    ∀ {fuel off : Nat} {oc : Nat × List α},
      oc ∈ chunksFrom v reference cs fuel off → ChunkGood v oc := by
  intro fuel
  induction fuel with
  | zero => intro off oc h; simp [chunksFrom] at h
  | succ n ih =>
    intro off oc h
    simp only [chunksFrom] at h
    match hn : chunksNext v reference cs off with
    | none => rw [hn] at h; simp at h
    | some (s, c, off2) =>
      rw [hn] at h
      rcases List.mem_cons.mp h with h | h
      · subst h; exact (chunksNext_good hcs hn).1
      · exact ih h

theorem chunksFrom_covers {α : Type} [DecidableEq α] {v reference : List α} {cs : Nat}
    (hcs : 0 < cs) :
    ∀ {fuel off i : Nat}, v.length ≤ off + fuel → off ≤ i → i < v.length →
      v[i]? ≠ reference[i]? → Covers (chunksFrom v reference cs fuel off) i := by
  intro fuel
  induction fuel with
  | zero => intro off i h1 h2 h3; omega
  | succ n ih =>
    intro off i hfuel hoff hi hne
    obtain ⟨s, hf, hsle⟩ := findDiffIdx_le hoff hi hne
    obtain ⟨hos, hsl, hds⟩ := findDiffIdx_some hf
    have hw : 1 ≤ min (s + cs) v.length - s := by omega
    obtain ⟨c0, hl0, _⟩ := lastDiffIdx_ge s (min (s + cs) v.length - s)
      0 (by omega) (by simpa using hds)
    have hnext : chunksNext v reference cs off =
        some (s, (v.drop s).take (c0 + 1), min (s + cs) v.length) := by
      simp only [chunksNext, if_neg (by omega : ¬ v.length ≤ off), hf, hl0]
    by_cases hcase : i < min (s + cs) v.length
    · -- i lies in this chunk's window
      obtain ⟨c1, hl1, hge⟩ := lastDiffIdx_ge s (min (s + cs) v.length - s)
        (i - s) (by omega) (by rw [show s + (i - s) = i by omega]; exact hne)
      have hc0 : c0 = c1 := by rw [hl0] at hl1; exact Option.some_inj.mp hl1
      subst hc0
      have hcb : c0 < min (s + cs) v.length - s := (lastDiffIdx_some hl0).1
      refine ⟨(s, (v.drop s).take (c0 + 1)), ?_, hsle, ?_⟩
      · simp [chunksFrom, hnext]
      · simp only [List.length_take, List.length_drop]
        omega
    · -- i lies beyond the window; the recursive call covers it
      have hcov := @ih (min (s + cs) v.length) i (by omega) (by omega) hi hne
      obtain ⟨oc, hmem, hcv⟩ := hcov
      refine ⟨oc, ?_, hcv⟩
      simp only [chunksFrom, hnext]
      exact List.mem_cons_of_mem _ hmem

theorem writeAt_length {α : Type} {base chunk : List α} {off : Nat}
    (h : off + chunk.length ≤ base.length) :
    (writeAt base off chunk).length = base.length := by
  simp only [writeAt, List.length_append, List.length_take, List.length_drop]
  omega

theorem writeAt_getElem_mid {α : Type} {base chunk : List α} {off i : Nat}
    (hb : off + chunk.length ≤ base.length) (h1 : off ≤ i) (h2 : i < off + chunk.length) :
    (writeAt base off chunk)[i]? = chunk[i - off]? := by
  unfold writeAt
  rw [List.append_assoc, List.getElem?_append_right
    (by simp only [List.length_take]; omega)]
  rw [List.getElem?_append_left (by simp only [List.length_take]; omega)]
  congr 1
  simp only [List.length_take]
  omega

theorem writeAt_getElem_left {α : Type} {base chunk : List α} {off i : Nat}
    (hb : off + chunk.length ≤ base.length) (h1 : i < off) :
    (writeAt base off chunk)[i]? = base[i]? := by
  unfold writeAt
  rw [List.append_assoc, List.getElem?_append_left
    (by simp only [List.length_take]; omega)]
  exact List.getElem?_take_of_lt h1

theorem writeAt_getElem_right {α : Type} {base chunk : List α} {off i : Nat}
    (hb : off + chunk.length ≤ base.length) (h1 : off + chunk.length ≤ i) :
    (writeAt base off chunk)[i]? = base[i]? := by
  unfold writeAt
  rw [List.append_assoc, List.getElem?_append_right
    (by simp only [List.length_take]; omega)]
  rw [List.getElem?_append_right (by simp only [List.length_take]; omega)]
  rw [List.getElem?_drop]
  congr 1
  simp only [List.length_take]
  omega

theorem overlay_cons {α : Type} (base : List α) (oc : Nat × List α)
    (rest : List (Nat × List α)) :
    overlay base (oc :: rest) = overlay (writeAt base oc.1 oc.2) rest := rfl

theorem overlay_length {α : Type} {v : List α} :
    ∀ {chunks : List (Nat × List α)} {base : List α},
      (∀ oc ∈ chunks, ChunkGood v oc) → base.length = v.length →
      (overlay base chunks).length = v.length := by
  intro chunks
  induction chunks with
  | nil => intro base _ hb; simpa [overlay] using hb
  | cons oc rest ih =>
    intro base hg hb
    have h1 : oc.1 + oc.2.length ≤ base.length := by
      rw [hb]; exact (hg oc (List.mem_cons_self _ _)).1
    rw [overlay_cons]
    exact ih (fun x hx => hg x (List.mem_cons_of_mem _ hx))
      (by rw [writeAt_length h1, hb])

theorem overlay_not_covered {α : Type} {v : List α} :
    ∀ {chunks : List (Nat × List α)} {base : List α} {i : Nat},
      (∀ oc ∈ chunks, ChunkGood v oc) → base.length = v.length →
      ¬ Covers chunks i → (overlay base chunks)[i]? = base[i]? := by
  intro chunks
  induction chunks with
  | nil => intro base i _ _ _; simp [overlay]
  | cons oc rest ih =>
    intro base i hg hb hnc
    have h1 : oc.1 + oc.2.length ≤ base.length := by
      rw [hb]; exact (hg oc (List.mem_cons_self _ _)).1
    have hnotin : i < oc.1 ∨ oc.1 + oc.2.length ≤ i := by
      by_contra hcon
      push_neg at hcon
      exact hnc ⟨oc, List.mem_cons_self _ _, by omega, by omega⟩
    rw [overlay_cons]
    have hrest : ¬ Covers rest i := fun ⟨x, hx, hc⟩ =>
      hnc ⟨x, List.mem_cons_of_mem _ hx, hc⟩
    rw [ih (fun x hx => hg x (List.mem_cons_of_mem _ hx)) (by rw [writeAt_length h1, hb])
      hrest]
    rcases hnotin with h | h
    · exact writeAt_getElem_left h1 h
    · exact writeAt_getElem_right h1 h

theorem overlay_covered {α : Type} {v : List α} :
    ∀ {chunks : List (Nat × List α)} {base : List α} {i : Nat},
      (∀ oc ∈ chunks, ChunkGood v oc) → base.length = v.length →
      Covers chunks i → (overlay base chunks)[i]? = v[i]? := by
  intro chunks
  induction chunks with
  | nil => intro base i _ _ hc; exact absurd hc (by simp [Covers])
  | cons oc rest ih =>
    intro base i hg hb hc
    have h1 : oc.1 + oc.2.length ≤ base.length := by
      rw [hb]; exact (hg oc (List.mem_cons_self _ _)).1
    rw [overlay_cons]
    by_cases hrest : Covers rest i
    · exact ih (fun x hx => hg x (List.mem_cons_of_mem _ hx))
        (by rw [writeAt_length h1, hb]) hrest
    · obtain ⟨x, hx, hxl, hxr⟩ := hc
      rcases List.mem_cons.mp hx with h | h
      · subst h
        rw [overlay_not_covered (fun y hy => hg y (List.mem_cons_of_mem _ hy))
          (by rw [writeAt_length h1, hb]) hrest]
        rw [writeAt_getElem_mid h1 hxl hxr]
        have := (hg x (List.mem_cons_self _ _)).2 (i - x.1) (by omega)
        rw [this, show x.1 + (i - x.1) = i by omega]
      · exact absurd ⟨x, h, hxl, hxr⟩ hrest

/-- Claim C1: for every vector `new`, every vector `reference` with
`len(new) ≤ len(reference)`, and every chunk size `cs > 0`, overlaying
the `(offset, slice)` chunks yielded by `chunk_changed(new, reference,
cs)` onto `reference` restricted to the first `len(new)` positions
produces a vector that equals `new` at every index `i` where
`new[i] ≠ reference[i]`. -/
theorem chunk_changed_overlay_correct {α : Type} [DecidableEq α]
    (new reference : List α) (cs : Nat) (hcs : 0 < cs)
    (hlen : new.length ≤ reference.length)
    (i : Nat) (hi : i < new.length) (hne : new[i]? ≠ reference[i]?) :
    (overlay (reference.take new.length) (chunk_changed new cs reference))[i]? = new[i]? := by
  have hbase : (reference.take new.length).length = new.length := by
    simp only [List.length_take]; omega
  exact overlay_covered (fun oc hoc => chunksFrom_good hcs hoc) hbase
    (chunksFrom_covers hcs (by omega) (Nat.zero_le _) hi hne)

/-- Witness for C1, at the spec's S1 example: `new = [4,5,7]`,
`reference = [4,5,6,6,8]`, `cs = 2`, position `i = 2` (where they
differ). -/
theorem chunk_changed_overlay_correct_witness :
    (overlay (([4, 5, 6, 6, 8] : List Int).take 3)
        (chunk_changed ([4, 5, 7] : List Int) 2 [4, 5, 6, 6, 8]))[2]? =
      ([4, 5, 7] : List Int)[2]? :=
  chunk_changed_overlay_correct [4, 5, 7] [4, 5, 6, 6, 8] 2 (by decide) (by decide) 2
    (by decide) (by decide)

-- sanity checks against the source's unit tests
example : chunk_changed [4, 5, 7] 2 [4, 5, 6, 6, 8] = [(2, [7])] := by decide
example :
    chunk_changed [1, -1, 4, -2, 6, -3, 8] 3 [1, 3, 4, 5, 6, 6, 8] =
      [(1, [-1, 4, -2]), (5, [-3])] := by decide
example : chunk_changed [(4 : Int), 5, 6] 2 [1, 2, 3] = [(0, [4, 5]), (2, [6])] := by decide
example : chunk_changed [(1 : Int), 0, 2, 0, 3] 2 [0, 0, 0, 0, 0] =
    [(0, [1]), (2, [2]), (4, [3])] := by decide
example : chunk_changed [(1 : Int), 2, 4] 2 [1, 2, 3] = [(2, [4])] := by decide

/-! ## Keyboard actor colour coalescing (`src/keyboard/mod.rs`) -/

/-- `Vec::resize(n, None)` (src/keyboard/mod.rs:275): truncate to `n`
elements, or pad with `None` up to length `n`. -/
def resizeFill {γ : Type} (l : List (Option γ)) (n : Nat) : List (Option γ) :=
  if n ≤ l.length then l.take n else l ++ List.replicate (n - l.length) none

/-- The body of `merge_colors` after operand selection
(src/keyboard/mod.rs:258-279).  All arithmetic is `i32` as in the source;
`toNat` marks the `as usize` casts.  The result is `none` exactly when
the source would panic: a negative value cast to `usize` or a slice
access past the end of the (possibly truncated) vector. -/
def mergeRun {γ : Type} (colors_left : List (Option γ)) (offset_left : Int)
    (colors_right : List (Option γ)) (offset_right : Int) (new_left : Bool) :
    Option (List (Option γ) × Int) :=
  let left_len : Int := colors_left.length
  let right_len : Int := colors_right.length
  let gap : Int := offset_right - (offset_left + left_len)
  let new_len : Int := left_len + gap + right_len
  let off : Int := if new_left then max (left_len + gap) left_len else left_len + gap
  let count : Int := if new_left then min (right_len + gap) right_len else right_len
  if 0 ≤ count ∧ 0 ≤ off ∧ 0 ≤ new_len ∧ off + count ≤ new_len then
    some (writeAt (resizeFill colors_left new_len.toNat) off.toNat
        (colors_right.drop (right_len - count).toNat), offset_left)
  else none

/-- `merge_colors` (src/keyboard/mod.rs:245-280): coalesce two
`UpdateColors` payloads.  The operand with the smaller offset becomes
`left` (ties make the *new* operand `left`, as in the source's
`offset_old < offset_new` test). -/
def merge_colors {γ : Type} (colors_old : List (Option γ)) (offset_old : Int)
    (colors_new : List (Option γ)) (offset_new : Int) :
    Option (List (Option γ) × Int) :=
  if offset_old < offset_new then
    mergeRun colors_old offset_old colors_new offset_new false
  else
    mergeRun colors_new offset_new colors_old offset_old true

/-- Map with the element's position, starting at `st`. -/
def applyFrom {γ : Type} (f : Nat → γ → γ) : Nat → List γ → List γ
  | _, [] => []
  | i, c :: rest => f i c :: applyFrom f (i + 1) rest

/-- Modelled from the spec: the effect of executing an
`UpdateColors(colors, off)` action on the device's per-LED colour state
(the controller that consumes the actor's `Option`-valued payloads lives
in `src/keyboard/keyboard.rs`, which is not part of the sources).  Per
§4.6, an entry `Some c` sets the LED at its position and the `None`
sentinel means "do not change"; positions outside the state are ignored. -/
def applyColors {γ : Type} (state : List γ) (colors : List (Option γ)) (off : Nat) :
    List γ :=
  applyFrom (fun i c => if off ≤ i then (colors.getD (i - off) none).getD c else c) 0 state

-- sanity checks against the source's unit tests (S3, S4 of the spec)
example :
    merge_colors [some 1, some 1, some 1] 2 [some 2, some 2, some 2] 7 =
      some ([some 1, some 1, some 1, none, none, some 2, some 2, some 2], 2) := by decide
example :
    merge_colors [some 1, some 1, some 1] 2 [some 2, some 2, some 2] 4 =
      some ([some 1, some 1, some 2, some 2, some 2], 2) := by decide
example :
    merge_colors [some 1, some 1, some 1] 4 [some 2, some 2, some 2] 2 =
      some ([some 2, some 2, some 2, some 1, some 1], 2) := by decide
example :
    merge_colors [some 1, some 1, some 1] 2 [some 2, some 2, some 2] 2 =
      some ([some 2, some 2, some 2], 2) := by decide

theorem applyFrom_getElem {γ : Type} (f : Nat → γ → γ) :
    ∀ (l : List γ) (st j : Nat), (applyFrom f st l)[j]? = (l[j]?).map (f (st + j)) := by
  intro l
  induction l with
  | nil => intro st j; simp [applyFrom]
  | cons c rest ih =>
    intro st j
    cases j with
    | zero => simp [applyFrom]
    | succ k =>
      simp only [applyFrom, List.getElem?_cons_succ]
      rw [ih (st + 1) k, show st + 1 + k = st + (k + 1) from by omega]

theorem applyColors_getElem {γ : Type} (state : List γ) (colors : List (Option γ))
    (off i : Nat) :
    (applyColors state colors off)[i]? =
      (state[i]?).map
        (fun c => if off ≤ i then (colors.getD (i - off) none).getD c else c) := by
  unfold applyColors
  rw [applyFrom_getElem]
  simp

theorem resizeFill_length {γ : Type} (l : List (Option γ)) (n : Nat) :
    (resizeFill l n).length = n := by
  unfold resizeFill
  split
  · simp only [List.length_take]; omega
  · simp only [List.length_append, List.length_replicate]; omega

theorem resizeFill_getElem {γ : Type} (l : List (Option γ)) (n j : Nat) :
    (resizeFill l n)[j]? =
      if j < min n l.length then l[j]? else if j < n then some none else none := by
  unfold resizeFill
  split
  · rename_i h
    by_cases hj : j < n
    · rw [List.getElem?_take_of_lt hj, if_pos (by omega)]
    · rw [if_neg (by omega), if_neg (by omega)]
      exact List.getElem?_eq_none (by simp only [List.length_take]; omega)
  · rename_i h
    by_cases hj : j < l.length
    · rw [List.getElem?_append_left hj, if_pos (by omega)]
    · rw [List.getElem?_append_right (by omega), if_neg (by omega)]
      by_cases hjn : j < n
      · rw [if_pos hjn, List.getElem?_replicate, if_pos (by omega)]
      · rw [if_neg hjn, List.getElem?_replicate, if_neg (by omega)]

theorem getElem_getD {γ : Type} {l : List γ} {k : Nat} (h : k < l.length) (d : γ) :
    l[k]? = some (l.getD k d) := by
  rw [List.getD_eq_getElem?_getD, List.getElem?_eq_getElem h]
  rfl

theorem merge_colors_eq_caseA {γ : Type} (old new : List (Option γ)) (ooff noff : Nat)
    (hlt : ooff < noff) (hend : ooff + old.length ≤ noff + new.length) :
    merge_colors old (ooff : Int) new (noff : Int) =
      some (writeAt (resizeFill old (noff + new.length - ooff)) (noff - ooff) new,
        (ooff : Int)) := by
  unfold merge_colors mergeRun
  rw [if_pos (by exact_mod_cast hlt)]
  simp only [Bool.false_eq_true, if_false]
  rw [if_pos (by constructor <;> [omega; constructor <;> [omega; constructor <;> omega]])]
  congr 2
  congr 1
  · congr 1
    omega
  · omega
  · rw [Int.sub_self]
    simp

theorem merge_colors_eq_caseB {γ : Type} (old new : List (Option γ)) (ooff noff : Nat)
    (hge : noff ≤ ooff) (hend : noff + new.length ≤ ooff + old.length) :
    merge_colors old (ooff : Int) new (noff : Int) =
      some (writeAt (resizeFill new (ooff + old.length - noff))
          (max (ooff - noff) new.length)
          (old.drop (old.length - min (ooff + old.length - noff - new.length) old.length)),
        (noff : Int)) := by
  unfold merge_colors mergeRun
  rw [if_neg (by omega)]
  simp only [if_true]
  rw [if_pos (by constructor <;> [omega; constructor <;> [omega; constructor <;> omega]])]
  congr 2
  congr 1
  · congr 1
    omega
  · omega
  · congr 1
    omega

theorem mergeM_caseA_getElem {γ : Type} (old new : List (Option γ)) (ooff noff : Nat)
    (hlt : ooff < noff) (hend : ooff + old.length ≤ noff + new.length) (j : Nat) :
    (writeAt (resizeFill old (noff + new.length - ooff)) (noff - ooff) new)[j]? =
      if noff - ooff ≤ j ∧ j < noff - ooff + new.length then
        some (new.getD (j - (noff - ooff)) none)
      else if j < old.length then some (old.getD j none)
      else if j < noff + new.length - ooff then some none
      else none := by
  have hres : (resizeFill old (noff + new.length - ooff)).length =
      noff + new.length - ooff := resizeFill_length _ _
  have hb : (noff - ooff) + new.length ≤ (resizeFill old (noff + new.length - ooff)).length := by
    rw [hres]; omega
  by_cases h1 : noff - ooff ≤ j ∧ j < noff - ooff + new.length
  · rw [writeAt_getElem_mid hb h1.1 h1.2, if_pos h1]
    exact getElem_getD (by omega) none
  · rw [if_neg h1]
    rcases (by omega : j < noff - ooff ∨ noff - ooff + new.length ≤ j) with h2 | h2
    · rw [writeAt_getElem_left hb h2, resizeFill_getElem]
      by_cases h3 : j < old.length
      · rw [if_pos (by omega), if_pos h3]
        exact getElem_getD h3 none
      · rw [if_neg (by omega), if_pos (by omega), if_neg h3]
    · rw [writeAt_getElem_right hb h2, resizeFill_getElem]
      rw [if_neg (by omega), if_neg (by omega), if_neg (by omega)]

theorem mergeM_caseB_getElem {γ : Type} (old new : List (Option γ)) (ooff noff : Nat)
    (hge : noff ≤ ooff) (hend : noff + new.length ≤ ooff + old.length) (j : Nat) :
    (writeAt (resizeFill new (ooff + old.length - noff))
        (max (ooff - noff) new.length)
        (old.drop (old.length - min (ooff + old.length - noff - new.length) old.length)))[j]? =
      if j < new.length then some (new.getD j none)
      else if ooff - noff ≤ j ∧ j < ooff + old.length - noff then
        some (old.getD (j - (ooff - noff)) none)
      else if j < ooff + old.length - noff then some none
      else none := by
  have hC : min (ooff + old.length - noff - new.length) old.length ≤ old.length :=
    Nat.min_le_right _ _
  have hchunk : (old.drop
      (old.length - min (ooff + old.length - noff - new.length) old.length)).length =
      min (ooff + old.length - noff - new.length) old.length := by
    rw [List.length_drop]; omega
  have hres : (resizeFill new (ooff + old.length - noff)).length =
      ooff + old.length - noff := resizeFill_length _ _
  have hb : max (ooff - noff) new.length +
      (old.drop
        (old.length - min (ooff + old.length - noff - new.length) old.length)).length ≤
      (resizeFill new (ooff + old.length - noff)).length := by
    rw [hchunk, hres]; omega
  by_cases h1 : j < new.length
  · rw [writeAt_getElem_left hb (by omega), resizeFill_getElem,
      if_pos (by omega), if_pos h1]
    exact getElem_getD h1 none
  · rw [if_neg h1]
    by_cases h2 : max (ooff - noff) new.length ≤ j ∧ j < ooff + old.length - noff
    · have hj2 : j < max (ooff - noff) new.length +
          (old.drop
            (old.length - min (ooff + old.length - noff - new.length) old.length)).length := by
        rw [hchunk]; omega
      rw [writeAt_getElem_mid hb h2.1 hj2, List.getElem?_drop]
      rw [if_pos (by omega)]
      rw [@getElem_getD _ old
        (old.length - min (ooff + old.length - noff - new.length) old.length +
          (j - max (ooff - noff) new.length)) (by omega) none]
      congr 1
      congr 1
      omega
    · rcases (by omega : j < max (ooff - noff) new.length ∨
          ooff + old.length - noff ≤ j) with h3 | h3
      · rw [writeAt_getElem_left hb h3, resizeFill_getElem]
        rw [if_neg (by omega), if_pos (by omega), if_neg (by omega)]
      · have hj3 : max (ooff - noff) new.length +
            (old.drop
              (old.length - min (ooff + old.length - noff - new.length) old.length)).length ≤
            j := by
          rw [hchunk]; omega
        rw [writeAt_getElem_right hb hj3, resizeFill_getElem]
        rw [if_neg (by omega), if_neg (by omega), if_neg (by omega)]

/-- Claim C2 (amended): coalescing two `UpdateColors` actions with
`merge_colors` is equivalent to executing them in order, **provided**
(i) every entry of the newer action is a real colour (no `None`
sentinel), and (ii) the later-offset operand reaches at least as far as
the earlier-offset operand ends (no strict containment).  The merged
offset is the smaller of the two offsets. -/
theorem merge_colors_correct {γ : Type} (colors_old colors_new : List (Option γ))
    (ooff noff : Nat) (state : List γ)
    (hsome : ∀ x ∈ colors_new, x ≠ none)
    (hend : if ooff < noff then ooff + colors_old.length ≤ noff + colors_new.length
            else noff + colors_new.length ≤ ooff + colors_old.length) :
    ∃ M, merge_colors colors_old (ooff : Int) colors_new (noff : Int) =
        some (M, ((min ooff noff : Nat) : Int)) ∧
      applyColors state M (min ooff noff) =
        applyColors (applyColors state colors_old ooff) colors_new noff := by
  by_cases hAB : ooff < noff
  · -- the old action is the left operand
    rw [if_pos hAB] at hend
    have hmin : min ooff noff = ooff := by omega
    refine ⟨writeAt (resizeFill colors_old (noff + colors_new.length - ooff))
      (noff - ooff) colors_new, ?_, ?_⟩
    · rw [hmin]
      exact merge_colors_eq_caseA colors_old colors_new ooff noff hAB hend
    · apply List.ext_getElem?
      intro i
      rw [applyColors_getElem, applyColors_getElem, applyColors_getElem, hmin]
      cases hst : state[i]? with
      | none => rfl
      | some c =>
        simp only [Option.map_some']
        congr 1
        by_cases h0 : ooff ≤ i
        · simp only [if_pos h0]
          rw [show (writeAt (resizeFill colors_old (noff + colors_new.length - ooff))
              (noff - ooff) colors_new).getD (i - ooff) none =
              ((writeAt (resizeFill colors_old (noff + colors_new.length - ooff))
                (noff - ooff) colors_new)[i - ooff]?).getD none from
            List.getD_eq_getElem?_getD _ _ _]
          rw [mergeM_caseA_getElem colors_old colors_new ooff noff hAB hend (i - ooff)]
          by_cases hN : noff ≤ i ∧ i < noff + colors_new.length
          · rw [if_pos (by omega : noff - ooff ≤ i - ooff ∧
              i - ooff < noff - ooff + colors_new.length)]
            simp only [Option.getD_some]
            rw [show i - ooff - (noff - ooff) = i - noff from by omega, if_pos hN.1]
            obtain ⟨x, hx⟩ : ∃ x, colors_new.getD (i - noff) none = some x := by
              have hlt : i - noff < colors_new.length := by omega
              have hmem : colors_new.getD (i - noff) none ∈ colors_new := by
                rw [List.getD_eq_getElem?_getD, List.getElem?_eq_getElem hlt,
                  Option.getD_some]
                exact List.getElem_mem hlt
              exact Option.ne_none_iff_exists'.mp (hsome _ hmem)
            rw [hx]
            rfl
          · rw [if_neg (by omega : ¬(noff - ooff ≤ i - ooff ∧
              i - ooff < noff - ooff + colors_new.length))]
            have hRHS : (if noff ≤ i then
                  (colors_new.getD (i - noff) none).getD
                    ((colors_old.getD (i - ooff) none).getD c)
                else (colors_old.getD (i - ooff) none).getD c) =
                (colors_old.getD (i - ooff) none).getD c := by
              by_cases hn2 : noff ≤ i
              · rw [if_pos hn2]
                rw [show colors_new.getD (i - noff) none = none from by
                  rw [List.getD_eq_getElem?_getD, List.getElem?_eq_none (by omega)]
                  rfl]
                rfl
              · rw [if_neg hn2]
            rw [hRHS]
            by_cases hO : i - ooff < colors_old.length
            · rw [if_pos hO]
              rfl
            · rw [if_neg hO]
              rw [show colors_old.getD (i - ooff) none = none from by
                rw [List.getD_eq_getElem?_getD, List.getElem?_eq_none (by omega)]
                rfl]
              by_cases hL : i - ooff < noff + colors_new.length - ooff
              · rw [if_pos hL]
                rfl
              · rw [if_neg hL]
                rfl
        · have h1 : ¬ noff ≤ i := by omega
          simp only [if_neg h0, if_neg h1]
  · -- the new action is the left operand
    rw [if_neg hAB] at hend
    have hge : noff ≤ ooff := by omega
    have hmin : min ooff noff = noff := by omega
    refine ⟨writeAt (resizeFill colors_new (ooff + colors_old.length - noff))
      (max (ooff - noff) colors_new.length)
      (colors_old.drop (colors_old.length -
        min (ooff + colors_old.length - noff - colors_new.length) colors_old.length)),
      ?_, ?_⟩
    · rw [hmin]
      exact merge_colors_eq_caseB colors_old colors_new ooff noff hge hend
    · apply List.ext_getElem?
      intro i
      rw [applyColors_getElem, applyColors_getElem, applyColors_getElem, hmin]
      cases hst : state[i]? with
      | none => rfl
      | some c =>
        simp only [Option.map_some']
        congr 1
        by_cases h0 : noff ≤ i
        · simp only [if_pos h0]
          rw [show (writeAt (resizeFill colors_new (ooff + colors_old.length - noff))
              (max (ooff - noff) colors_new.length)
              (colors_old.drop (colors_old.length -
                min (ooff + colors_old.length - noff - colors_new.length)
                  colors_old.length))).getD (i - noff) none =
              ((writeAt (resizeFill colors_new (ooff + colors_old.length - noff))
                (max (ooff - noff) colors_new.length)
                (colors_old.drop (colors_old.length -
                  min (ooff + colors_old.length - noff - colors_new.length)
                    colors_old.length)))[i - noff]?).getD none from
            List.getD_eq_getElem?_getD _ _ _]
          rw [mergeM_caseB_getElem colors_old colors_new ooff noff hge hend (i - noff)]
          by_cases hN : i < noff + colors_new.length
          · rw [if_pos (by omega : i - noff < colors_new.length)]
            simp only [Option.getD_some]
            obtain ⟨x, hx⟩ : ∃ x, colors_new.getD (i - noff) none = some x := by
              have hlt : i - noff < colors_new.length := by omega
              have hmem : colors_new.getD (i - noff) none ∈ colors_new := by
                rw [List.getD_eq_getElem?_getD, List.getElem?_eq_getElem hlt,
                  Option.getD_some]
                exact List.getElem_mem hlt
              exact Option.ne_none_iff_exists'.mp (hsome _ hmem)
            rw [hx]
            rfl
          · rw [if_neg (by omega : ¬ i - noff < colors_new.length)]
            rw [show colors_new.getD (i - noff) none = none from by
              rw [List.getD_eq_getElem?_getD, List.getElem?_eq_none (by omega)]
              rfl]
            rw [Option.getD_none]
            by_cases hO : ooff - noff ≤ i - noff ∧ i - noff < ooff + colors_old.length - noff
            · rw [if_pos hO]
              simp only [Option.getD_some]
              rw [show i - noff - (ooff - noff) = i - ooff from by omega,
                if_pos (by omega : ooff ≤ i)]
            · rw [if_neg hO]
              have hio : ¬ (ooff ≤ i ∧ i < ooff + colors_old.length) := by omega
              by_cases hOO : ooff ≤ i
              · rw [if_pos hOO]
                rw [show colors_old.getD (i - ooff) none = none from by
                  rw [List.getD_eq_getElem?_getD, List.getElem?_eq_none (by omega)]
                  rfl]
                by_cases hL : i - noff < ooff + colors_old.length - noff
                · rw [if_pos hL]
                  rfl
                · rw [if_neg hL]
                  rfl
              · rw [if_neg hOO]
                by_cases hL : i - noff < ooff + colors_old.length - noff
                · rw [if_pos hL]
                  rfl
                · rw [if_neg hL]
                  rfl
        · have h1 : ¬ ooff ≤ i := by omega
          simp only [if_neg h0, if_neg h1]

/-- Witness for C2's amended theorem, at the spec's S3 example
(disjoint ranges with a gap): old `[1,1,1]@2`, new `[2,2,2]@7` over a
ten-LED state. -/
theorem merge_colors_correct_witness :
    ∃ M, merge_colors [some 1, some 1, some 1] ((2 : Nat) : Int)
        [some 2, some 2, some 2] ((7 : Nat) : Int) = some (M, ((min 2 7 : Nat) : Int)) ∧
      applyColors [0, 0, 0, 0, 0, 0, 0, 0, 0, 0] M (min 2 7) =
        applyColors
          (applyColors [0, 0, 0, 0, 0, 0, 0, 0, 0, 0] [some 1, some 1, some 1] 2)
          [some 2, some 2, some 2] 7 :=
  merge_colors_correct [some 1, some 1, some 1] [some 2, some 2, some 2] 2 7
    [0, 0, 0, 0, 0, 0, 0, 0, 0, 0] (by decide) (by decide)

/-- Counterexample for C2 as stated: when the newer range `[9]@3` is
strictly contained in the older range `[1,2,3]@2`, the merged action
(`[1,9]@2`) silently truncates the old action's tail, so executing the
merged action differs from executing old-then-new (position 4 loses the
value 3). -/
theorem merge_colors_containment_counterexample :
    merge_colors [some 1, some 2, some 3] ((2 : Nat) : Int) [some 9] ((3 : Nat) : Int) =
      some ([some 1, some 9], (2 : Int)) ∧
    applyColors [0, 0, 0, 0, 0, 0, 0] [some 1, some 9] 2 ≠
      applyColors (applyColors [0, 0, 0, 0, 0, 0, 0] [some 1, some 2, some 3] 2)
        [some 9] 3 := by
  decide

/-! ## Device channel reader task (`src/device.rs`) -/

/-- One `requests.retain(..)` pass of the reader task
(src/device.rs:63-76): given the received HID `buffer`, every pending
entry whose registered byte `pref`ix is a prefix of `buffer` is removed
and its waker fed with `buffer`; the others are kept in order.  An entry
is `(prefix bytes, request tag)`; the first component of the result is
the remaining pending list, the second the tags satisfied by this read
(each of them receives the same `buffer`). -/
def readerStep (buffer : List Nat) :
    List (List Nat × Nat) → List (List Nat × Nat) × List Nat
  | [] => ([], [])
  | e :: rest =>
    let r := readerStep buffer rest
    if e.1.isPrefixOf buffer then (r.1, e.2 :: r.2) else (e :: r.1, r.2)

/-- Counterexample for C4 as stated: with two pending entries sharing
the prefix `[7]`, a single read of `[7, 3]` removes and satisfies *both*
entries; the later entry does not remain registered. -/
theorem readerStep_counterexample :
    readerStep [7, 3] [([7], 0), ([7], 1)] = ([], [0, 1]) ∧
      ([] : List (List Nat × Nat)) ≠ [([7], 1)] := by
  decide

/-- Claim C4 (amended): one reader-task step removes and satisfies
*every* pending entry whose prefix is a prefix of the received buffer
(feeding all of them the same buffer), and keeps exactly the
non-matching entries, in order.  In particular two requests registered
with the same prefix are both resolved by the same single read, not by
distinct reads in registration order. -/
theorem readerStep_spec (buffer : List Nat) (requests : List (List Nat × Nat)) :
    readerStep buffer requests =
      (requests.filter (fun e => ! e.1.isPrefixOf buffer),
        (requests.filter (fun e => e.1.isPrefixOf buffer)).map Prod.snd) := by
  induction requests with
  | nil => rfl
  | cons e rest ih =>
    simp only [readerStep, ih, List.filter_cons, List.map_cons]
    by_cases h : e.1.isPrefixOf buffer
    · simp [h]
    · simp [h]

/-! ## Effect capability flags (`src/config.rs`, `src/consts.rs`) -/

/-- `MODE_FLAG_HAS_SPEED` (src/consts.rs:43). -/
def MODE_FLAG_HAS_SPEED : Nat := 1
/-- `MODE_FLAG_HAS_BRIGHTNESS` (src/consts.rs:44). -/
def MODE_FLAG_HAS_BRIGHTNESS : Nat := 16
/-- `MODE_FLAG_HAS_PER_LED_COLOR` (src/consts.rs:45). -/
def MODE_FLAG_HAS_PER_LED_COLOR : Nat := 32
/-- `MODE_FLAG_HAS_MODE_SPECIFIC_COLOR` (src/consts.rs:46). -/
def MODE_FLAG_HAS_MODE_SPECIFIC_COLOR : Nat := 64
/-- `MODE_FLAG_HAS_RANDOM_COLOR` (src/consts.rs:47). -/
def MODE_FLAG_HAS_RANDOM_COLOR : Nat := 128

/-- Modelled from the spec: the OpenRGB `MANUAL_SAVE` mode flag named in
the spec's flag set ("MANUAL_SAVE=…", value elided).  No such constant
exists anywhere in the sources; OpenRGB defines it as bit 8. -/
def MODE_FLAG_MANUAL_SAVE : Nat := 256

/-- The control kinds collected from the VIA menus
(src/config.rs:259-265). -/
inductive ControlType
  | brightness
  | speed
  | color
  | colorPalette

/-- A collected control (src/config.rs:267-271).  The `showIf` predicate
string is abstracted as its value on the effect id: the source builds an
`evalexpr` tree from the string with `{id_qmk_rgb_matrix_effect}` bound
to the id; an unparseable predicate skips the control and an evaluation
failure counts as `false`, so any such behaviour is some function
`Int → Bool`. -/
structure Control where
  control_type : ControlType
  showIf : Option (Int → Bool)

/-- One iteration of the control loop inside `Config::from_str`
(src/config.rs:151-182): evaluate the control's `showIf` predicate on the
effect id and, when active, record the control in the
`(has_brightness, has_speed, color_type)` accumulator. -/
def controlStep (id : Int) (acc : Bool × Bool × Option Nat) (control : Control) :
    Bool × Bool × Option Nat :=
  let is_active := match control.showIf with
    | some p => p id
    | none => true
  if is_active then
    match control.control_type with
    | ControlType.brightness => (true, acc.2.1, acc.2.2)
    | ControlType.speed => (acc.1, true, acc.2.2)
    | ControlType.color => (acc.1, acc.2.1, some MODE_FLAG_HAS_MODE_SPECIFIC_COLOR)
    | ControlType.colorPalette => (acc.1, acc.2.1, some MODE_FLAG_HAS_PER_LED_COLOR)
  else acc

/-- The per-effect flag computation of `Config::from_str`
(src/config.rs:145-194): fold the controls, then assemble the flag word,
defaulting the colour flag to `MODE_FLAG_HAS_RANDOM_COLOR`. -/
def computeEffectFlags (controls : List Control) (id : Int) : Nat :=
  let r := controls.foldl (controlStep id) (false, false, none)
  let flags := (if r.1 then MODE_FLAG_HAS_BRIGHTNESS else 0) |||
    (if r.2.1 then MODE_FLAG_HAS_SPEED else 0)
  flags ||| r.2.2.getD MODE_FLAG_HAS_RANDOM_COLOR

/-- The `effects` list produced by `Config::from_str`
(src/config.rs:143-195) from the effect dropdown's `(name, id)` options
and the collected controls. -/
def computeEffects (controls : List Control) (options : List (String × Int)) :
    List (String × Int × Nat) :=
  options.map (fun p => (p.1, p.2, computeEffectFlags controls p.2))

theorem controlFold_color_cases (id : Int) :
    ∀ (controls : List Control) (acc : Bool × Bool × Option Nat),
      acc.2.2 = none ∨ acc.2.2 = some MODE_FLAG_HAS_MODE_SPECIFIC_COLOR ∨
        acc.2.2 = some MODE_FLAG_HAS_PER_LED_COLOR →
      (controls.foldl (controlStep id) acc).2.2 = none ∨
        (controls.foldl (controlStep id) acc).2.2 = some MODE_FLAG_HAS_MODE_SPECIFIC_COLOR ∨
        (controls.foldl (controlStep id) acc).2.2 = some MODE_FLAG_HAS_PER_LED_COLOR := by
  intro controls
  induction controls with
  | nil => intro acc h; exact h
  | cons control rest ih =>
    intro acc h
    simp only [List.foldl_cons]
    apply ih
    unfold controlStep
    by_cases ha : (match control.showIf with
        | some p => p id
        | none => true) = true
    · simp only [ha, if_true]
      cases control.control_type <;> simp [h]
    · simp only [Bool.not_eq_true] at ha
      simp only [ha]
      simp [h]

theorem computeEffectFlags_eq (controls : List Control) (id : Int) :
    computeEffectFlags controls id =
      ((if (controls.foldl (controlStep id) (false, false, none)).1 then
          MODE_FLAG_HAS_BRIGHTNESS else 0) |||
        (if (controls.foldl (controlStep id) (false, false, none)).2.1 then
          MODE_FLAG_HAS_SPEED else 0)) |||
      ((controls.foldl (controlStep id) (false, false, none)).2.2.getD
        MODE_FLAG_HAS_RANDOM_COLOR) := rfl

/-- Claim C3 (amended): for every effect `(name, id, flags)` produced
from a parsed VIA config, if neither `HAS_PER_LED_COLOR` nor
`HAS_MODE_SPECIFIC_COLOR` is set and `id ≠ 0` then `HAS_RANDOM_COLOR` is
set (this in fact holds for every `id`); but the parser never sets any
`MANUAL_SAVE` bit — every produced flag word is a sub-mask of
`SPEED ∪ BRIGHTNESS ∪ PER_LED ∪ MODE_SPECIFIC ∪ RANDOM`. -/
theorem computeEffects_flags (controls : List Control) (options : List (String × Int))
    (e : String × Int × Nat) (he : e ∈ computeEffects controls options) :
    (e.2.1 ≠ 0 → e.2.2 &&& MODE_FLAG_HAS_PER_LED_COLOR = 0 →
      e.2.2 &&& MODE_FLAG_HAS_MODE_SPECIFIC_COLOR = 0 →
      e.2.2 &&& MODE_FLAG_HAS_RANDOM_COLOR ≠ 0) ∧
    e.2.2 &&& MODE_FLAG_MANUAL_SAVE = 0 ∧
    e.2.2 &&& (MODE_FLAG_HAS_SPEED ||| MODE_FLAG_HAS_BRIGHTNESS |||
      MODE_FLAG_HAS_PER_LED_COLOR ||| MODE_FLAG_HAS_MODE_SPECIFIC_COLOR |||
      MODE_FLAG_HAS_RANDOM_COLOR) = e.2.2 := by
  obtain ⟨p, hp, rfl⟩ := List.mem_map.mp he
  simp only
  rw [computeEffectFlags_eq]
  have hc := controlFold_color_cases p.2 controls (false, false, none) (Or.inl rfl)
  rcases hc with h | h | h <;>
    rw [h] <;>
    cases hb : (controls.foldl (controlStep p.2) (false, false, none)).1 <;>
    cases hs : (controls.foldl (controlStep p.2) (false, false, none)).2.1 <;>
    refine ⟨fun _ h2 h3 => ?_, by decide, by decide⟩ <;>
    first
      | decide
      | exact absurd h2 (by decide)
      | exact absurd h3 (by decide)

/-- Witness for C3's amended theorem: a config whose menus contribute a
single speed control without a `showIf` predicate and an effect
dropdown with the single entry `("X", 5)`. -/
theorem computeEffects_flags_witness :
    ((("X", (5 : Int), computeEffectFlags [⟨ControlType.speed, none⟩] 5).2.1 ≠ 0 →
      ("X", (5 : Int), computeEffectFlags [⟨ControlType.speed, none⟩] 5).2.2 &&&
        MODE_FLAG_HAS_PER_LED_COLOR = 0 →
      ("X", (5 : Int), computeEffectFlags [⟨ControlType.speed, none⟩] 5).2.2 &&&
        MODE_FLAG_HAS_MODE_SPECIFIC_COLOR = 0 →
      ("X", (5 : Int), computeEffectFlags [⟨ControlType.speed, none⟩] 5).2.2 &&&
        MODE_FLAG_HAS_RANDOM_COLOR ≠ 0) ∧
    ("X", (5 : Int), computeEffectFlags [⟨ControlType.speed, none⟩] 5).2.2 &&&
      MODE_FLAG_MANUAL_SAVE = 0 ∧
    ("X", (5 : Int), computeEffectFlags [⟨ControlType.speed, none⟩] 5).2.2 &&&
      (MODE_FLAG_HAS_SPEED ||| MODE_FLAG_HAS_BRIGHTNESS |||
        MODE_FLAG_HAS_PER_LED_COLOR ||| MODE_FLAG_HAS_MODE_SPECIFIC_COLOR |||
        MODE_FLAG_HAS_RANDOM_COLOR) =
      ("X", (5 : Int), computeEffectFlags [⟨ControlType.speed, none⟩] 5).2.2) :=
  computeEffects_flags [⟨ControlType.speed, none⟩] [("X", 5)] _ (by decide)

/-- Counterexample for C3 as stated: an effect with an unconditional
speed control gets flags `HAS_SPEED ∪ HAS_RANDOM_COLOR = 129`, with
`HAS_SPEED` set but no `MANUAL_SAVE` bit — the claim's second implication
fails (the sources define no `MANUAL_SAVE` flag at all). -/
theorem computeEffects_manual_save_counterexample :
    computeEffects [⟨ControlType.speed, none⟩] [("X", 5)] = [("X", 5, 129)] ∧
    129 &&& MODE_FLAG_HAS_SPEED ≠ 0 ∧ 129 &&& MODE_FLAG_MANUAL_SAVE = 0 := by
  decide

/-! ## `Config::count_leds` (`src/config.rs`) -/

/-- The derived `Ord` used by `self.leds.iter().max()`
(src/config.rs:210): `Option<(u8, (u8, u8))>` with `None < Some(..)` and
tuples compared lexicographically, `(led_index, (row, col))`. -/
def cmpLed : Option (Nat × Nat × Nat) → Option (Nat × Nat × Nat) → Ordering
  | none, none => Ordering.eq
  | none, some _ => Ordering.lt
  | some _, none => Ordering.gt
  | some a, some b =>
    (compare a.1 b.1).then ((compare a.2.1 b.2.1).then (compare a.2.2 b.2.2))

/-- `Iterator::max` (src/config.rs:210): `none` on an empty vector,
otherwise the last maximal element under `cmpLed`. -/
def rustMax (l : List (Option (Nat × Nat × Nat))) : Option (Option (Nat × Nat × Nat)) :=
  l.foldl
    (fun acc x => match acc with
      | none => some x
      | some a => if cmpLed a x = Ordering.gt then some a else some x)
    none

/-- `Config::count_leds` (src/config.rs:209-216): `max(leds).unwrap_or(&None)`,
then `led_index + 1` for a present maximal entry and `0` otherwise. -/
def count_leds (leds : List (Option (Nat × Nat × Nat))) : Nat :=
  match (rustMax leds).getD none with
  | some idx => idx.1 + 1
  | none => 0

/-- `led_index + 1` of a present entry, `0` for an absent one: the value
`count_leds` extracts from the maximal element. -/
def ledVal : Option (Nat × Nat × Nat) → Nat
  | some l => l.1 + 1
  | none => 0

theorem cmpLed_pick_max (a x : Option (Nat × Nat × Nat)) :
    ledVal (if cmpLed a x = Ordering.gt then a else x) = Nat.max (ledVal a) (ledVal x) := by
  match a, x with
  | none, none => simp [cmpLed, ledVal]
  | none, some b => simp [cmpLed, ledVal]
  | some p, none => simp [cmpLed, ledVal]
  | some p, some q =>
    simp only [cmpLed, ledVal]
    by_cases h : (compare p.1 q.1).then
        ((compare p.2.1 q.2.1).then (compare p.2.2 q.2.2)) = Ordering.gt
    · rw [if_pos h]
      have : q.1 ≤ p.1 := by
        rcases Ordering.then_eq_gt.mp h with h1 | ⟨h1, _⟩
        · exact Nat.le_of_lt (Nat.compare_eq_gt.mp h1)
        · exact Nat.le_of_eq (Nat.compare_eq_eq.mp h1).symm
      simp [ledVal]
      omega
    · rw [if_neg h]
      have : p.1 ≤ q.1 := by
        rcases ho : compare p.1 q.1 with hlt | heq | hgt
        · exact Nat.le_of_lt (Nat.compare_eq_lt.mp ho)
        · exact Nat.le_of_eq (Nat.compare_eq_eq.mp ho)
        · exact absurd (Ordering.then_eq_gt.mpr (Or.inl ho)) h
      simp [ledVal]
      omega

theorem rustMax_fold_some (l : List (Option (Nat × Nat × Nat))) :
    ∀ a, l.foldl
        (fun acc x => match acc with
          | none => some x
          | some a => if cmpLed a x = Ordering.gt then some a else some x)
        (some a) =
      some (l.foldl (fun a x => if cmpLed a x = Ordering.gt then a else x) a) := by
  induction l with
  | nil => intro a; rfl
  | cons y rest ih =>
    intro a
    simp only [List.foldl_cons]
    by_cases h : cmpLed a y = Ordering.gt
    · rw [if_pos h, if_pos h]
      exact ih a
    · rw [if_neg h, if_neg h]
      exact ih y

theorem ledVal_foldl (l : List (Option (Nat × Nat × Nat))) :
    ∀ a, ledVal (l.foldl (fun a x => if cmpLed a x = Ordering.gt then a else x) a) =
      l.foldl (fun n x => Nat.max n (ledVal x)) (ledVal a) := by
  induction l with
  | nil => intro a; rfl
  | cons y rest ih =>
    intro a
    simp only [List.foldl_cons]
    rw [ih, cmpLed_pick_max]

theorem nat_max_zero_left (n : Nat) : Nat.max 0 n = n := by
  simp [Nat.max_def]

theorem nat_max_assoc (a b c : Nat) : Nat.max (Nat.max a b) c = Nat.max a (Nat.max b c) := by
  simp only [Nat.max_def]
  split_ifs <;> omega

theorem foldl_nat_max (l : List Nat) : ∀ a, l.foldl Nat.max a = Nat.max a (l.foldl Nat.max 0) := by
  induction l with
  | nil => intro a; simp
  | cons y rest ih =>
    intro a
    simp only [List.foldl_cons]
    rw [ih (Nat.max a y), ih (Nat.max 0 y), nat_max_zero_left, nat_max_assoc]

theorem foldl_ledVal_max (l : List (Option (Nat × Nat × Nat))) :
    ∀ a, l.foldl (fun n x => Nat.max n (ledVal x)) a =
      Nat.max a (l.foldl (fun n x => Nat.max n (ledVal x)) 0) := by
  induction l with
  | nil => intro a; simp
  | cons y rest ih =>
    intro a
    simp only [List.foldl_cons]
    rw [ih (Nat.max a (ledVal y)), ih (Nat.max 0 (ledVal y)), nat_max_zero_left, nat_max_assoc]

theorem count_leds_eq_fold (leds : List (Option (Nat × Nat × Nat))) :
    count_leds leds = leds.foldl (fun n x => Nat.max n (ledVal x)) 0 := by
  match leds with
  | [] => rfl
  | x :: rest =>
    unfold count_leds rustMax
    simp only [List.foldl_cons]
    rw [rustMax_fold_some rest x, Option.getD_some]
    show ledVal (rest.foldl (fun a x => if cmpLed a x = Ordering.gt then a else x) x) = _
    rw [ledVal_foldl rest x, nat_max_zero_left]

theorem nat_max_zero_right (n : Nat) : Nat.max n 0 = n := by
  simp [Nat.max_def]

theorem nat_max_succ (a b : Nat) : Nat.max (a + 1) (b + 1) = Nat.max a b + 1 := by
  simp only [Nat.max_def]
  split_ifs <;> omega

/-- Claim C8: `count_leds` returns `0` when the LED list contains no
present entries, and otherwise `1` plus the maximum `led_index` over all
present entries — regardless of the `(row, col)` positions stored
alongside the indices. -/
theorem count_leds_spec (leds : List (Option (Nat × Nat × Nat))) :
    count_leds leds =
      if leds.filterMap id = [] then 0
      else ((leds.filterMap id).map (fun l => l.1)).foldl Nat.max 0 + 1 := by
  rw [count_leds_eq_fold]
  induction leds with
  | nil => rfl
  | cons x rest ih =>
    cases x with
    | none =>
      simp only [List.foldl_cons]
      rw [show Nat.max 0 (ledVal none) = 0 from by simp [ledVal, Nat.max_def]]
      rw [List.filterMap_cons_none (by rfl)]
      exact ih
    | some p =>
      simp only [List.foldl_cons]
      rw [show Nat.max 0 (ledVal (some p)) = p.1 + 1 from by simp [ledVal, Nat.max_def]]
      rw [List.filterMap_cons_some (by rfl)]
      rw [if_neg (List.cons_ne_nil _ _)]
      rw [foldl_ledVal_max rest (p.1 + 1), ih]
      by_cases hF : rest.filterMap id = []
      · rw [if_pos hF, hF]
        simp only [List.map_cons, List.map_nil, List.foldl_cons, List.foldl_nil]
        rw [nat_max_zero_left, nat_max_zero_right]
      · rw [if_neg hF]
        simp only [List.map_cons, List.foldl_cons]
        rw [nat_max_succ, foldl_nat_max _ (Nat.max 0 p.1), nat_max_zero_left]

/-! ## Keymap LED extraction (`src/config.rs:223-245`)

Rust `&str` values are modelled as `List Char`; `splitOnChar`, `trimChars`
and `parseU8` model `str::split`, `str::trim` and `u8::from_str`. -/

/-- `str::split(sep)` on a character: the list of separated pieces, in
order; the result is never empty (splitting the empty string yields one
empty piece, as in Rust). -/
def splitOnChar (sep : Char) (l : List Char) : List (List Char) :=
  l.foldr
    (fun c acc => match acc with
      | [] => [[c]]
      | cur :: rest => if c = sep then [] :: cur :: rest else (c :: cur) :: rest)
    [[]]

/-- `str::trim`: strip leading and trailing whitespace. -/
def trimChars (l : List Char) : List Char :=
  ((l.dropWhile Char.isWhitespace).reverse.dropWhile Char.isWhitespace).reverse

/-- `str::parse::<u8>()`: an optional `+` sign, then one or more decimal
digits, value at most 255. -/
def parseU8 (l : List Char) : Option Nat :=
  let t := match l with
    | '+' :: rest => rest
    | _ => l
  if t ≠ [] ∧ t.all Char.isDigit then
    let n := t.foldl (fun acc c => acc * 10 + (c.toNat - 48)) 0
    if n ≤ 255 then some n else none
  else none

/-- `extract_led` (src/config.rs:223-245).  The outer `Option` models
abnormal termination: `none` is a panic (the unchecked `position[1]`
index), `some none` a silently dropped entry (every `?` and the encoder
check), `some (some (led, row, col))` a parsed LED.  Line 0 holds
"row,col"; line 1 holds `l<N>`; the iterator's `nth(7)` after consuming
lines 0 and 1 lands on line 9, whose leading `e` marks an encoder key. -/
def extract_led (key : List Char) : Option (Option (Nat × Nat × Nat)) :=
  let lines := splitOnChar '\n' key
  let position := splitOnChar ',' (lines.headD [])
  match parseU8 (trimChars (position.headD [])) with
  | none => some none
  | some row =>
    match position[1]? with
    | none => none
    | some colStr =>
      match parseU8 (trimChars colStr) with
      | none => some none
      | some col =>
        match (lines[1]?.bind
            (fun x => match x with
              | 'l' :: rest => some rest
              | _ => none)).bind parseU8 with
        | none => some none
        | some led =>
          match lines[9]? with
          | some ('e' :: _) => some none
          | _ => some (some (led, row, col))

/-- Claim C9: the code does *not* totally drop malformed entries — a
keymap entry whose first line parses as a `u8` but contains no comma
(here the entry `"5"`) makes `extract_led` index `position[1]` out of
bounds and panic, while a well-formed entry (`"0,1\nl5"`) parses. -/
theorem extract_led_panics :
    extract_led "5".toList = none ∧
    extract_led "0,1\nl5".toList = some (some (5, 0, 1)) := by
  decide

/-! ## `read_str` (`src/utils.rs:127-131`) -/

/-- `StreamExt::read_str`: `read_exact` fills a `len`-byte buffer from
the stream (modelled by taking the first `len` bytes of `incoming`),
then the slice `&buf[..len - 1]` is taken.  `len - 1` is a `usize`
subtraction, wrapping modulo `2^64`; an out-of-range slice bound is a
panic, modelled as `none`.  (The final `String::from_utf8_lossy` is
dropped: the result is the raw byte list.) -/
def read_str (len : Nat) (incoming : List Nat) : Option (List Nat) :=
  if (len + (2 ^ 64 - 1)) % 2 ^ 64 ≤ (incoming.take len).length then
    some ((incoming.take len).take ((len + (2 ^ 64 - 1)) % 2 ^ 64))
  else none

/-- Claim C10: with `payload_len = 0` the slice bound `len - 1`
underflows and `read_str` panics instead of returning an error; with
`payload_len ≥ 1` (and a stream holding the payload) it totally returns
the payload with its final byte (the null terminator) stripped. -/
theorem read_str_spec (len : Nat) (incoming : List Nat)
    (h1 : 1 ≤ len) (h2 : len < 2 ^ 64) (h3 : len ≤ incoming.length) :
    read_str 0 incoming = none ∧
    read_str len incoming = some ((incoming.take len).dropLast) := by
  have h64 : (2 : Nat) ^ 64 = 18446744073709551616 := by norm_num
  constructor
  · unfold read_str
    rw [if_neg (by rw [h64]; simp)]
  · unfold read_str
    have hbound : (len + (2 ^ 64 - 1)) % 2 ^ 64 = len - 1 := by rw [h64]; omega
    have hlen : (incoming.take len).length = len := by
      rw [List.length_take]; omega
    rw [hbound, if_pos (by rw [hlen]; omega), List.dropLast_eq_take, hlen]

/-- Witness for C10, at `len = 2`, stream `[65, 0]` (the name "A" with
its null terminator): length 0 panics, length 2 yields `[65]`. -/
theorem read_str_spec_witness :
    read_str 0 [65, 0] = none ∧ read_str 2 [65, 0] = some [65] := by
  have h := read_str_spec 2 [65, 0] (by decide) (by norm_num) (by decide)
  exact ⟨h.1, by rw [h.2]; rfl⟩

/-! ## Keyboard controller state (`src/keyboard.rs`)

Colour components travel through `f32` in the source (the `palette`
crate, an external collaborator).  They are modelled over `ℚ` with the
exact textbook HSV↔RGB formulas and round-to-nearest 8-bit quantisation;
`rmax`, `rmin`, `rabs` are explicit so that the definitions evaluate. -/

/-- The larger of two rationals. -/
def rmax (a b : ℚ) : ℚ := if a ≤ b then b else a

/-- The smaller of two rationals. -/
def rmin (a b : ℚ) : ℚ := if a ≤ b then a else b

/-- The absolute value of a rational. -/
def rabs (a : ℚ) : ℚ := if a < 0 then -a else a

/-- Modelled from the spec (§9: hue is 8-bit quantised, `[0, 255]`
covering the circle; the conversion itself lives in the external
`palette` crate): 8-bit HSV to exact HSV with hue in degrees and unit
saturation/value. -/
def hsvQofU8 (h s v : Nat) : ℚ × ℚ × ℚ :=
  ((h : ℚ) * 360 / 255, (s : ℚ) / 255, (v : ℚ) / 255)

/-- Modelled from the spec: exact HSV → RGB by the standard sextant
formula (`c = v·s`, `x = c·(1 − |h/60 mod 2 − 1|)`, `m = v − c`). -/
def hsvToRgbQ (hsv : ℚ × ℚ × ℚ) : ℚ × ℚ × ℚ :=
  let hd := hsv.1
  let s := hsv.2.1
  let v := hsv.2.2
  let c := v * s
  let hp := hd / 60
  let hm := if hp < 2 then hp else if hp < 4 then hp - 2 else hp - 4
  let x := c * (1 - rabs (hm - 1))
  let m := v - c
  let rgb1 :=
    if hp < 1 then (c, x, (0 : ℚ))
    else if hp < 2 then (x, c, 0)
    else if hp < 3 then ((0 : ℚ), c, x)
    else if hp < 4 then ((0 : ℚ), x, c)
    else if hp < 5 then (x, (0 : ℚ), c)
    else (c, (0 : ℚ), x)
  (rgb1.1 + m, rgb1.2.1 + m, rgb1.2.2 + m)

/-- Round-to-nearest 8-bit quantisation of a unit-interval value,
clamped to `[0, 255]`. -/
def u8scale (q : ℚ) : Nat := (max 0 (min 255 (Rat.floor (q * 255 + 1 / 2)))).toNat

/-- Round-to-nearest 8-bit quantisation of a hue in degrees. -/
def hueToU8 (h : ℚ) : Nat := (max 0 (min 255 (Rat.floor (h / 360 * 255 + 1 / 2)))).toNat

/-- Modelled from the spec: exact RGB → 8-bit HSV by the standard
formula; achromatic colours map to hue 0 and saturation 0 (as `palette`
does for `delta = 0`), and black maps to saturation 0. -/
def rgbQtoHsv8 (rgb : ℚ × ℚ × ℚ) : Nat × Nat × Nat :=
  let r := rgb.1
  let g := rgb.2.1
  let b := rgb.2.2
  let cmax := rmax r (rmax g b)
  let cmin := rmin r (rmin g b)
  let d := cmax - cmin
  let h : ℚ :=
    if d = 0 then 0
    else if cmax = r then 60 * ((g - b) / d) + (if g < b then 360 else 0)
    else if cmax = g then 60 * ((b - r) / d + 2)
    else 60 * ((r - g) / d + 4)
  let s : ℚ := if cmax = 0 then 0 else d / cmax
  (hueToU8 h, u8scale s, u8scale cmax)

/-- 8-bit RGB to exact RGB (`into_format::<f32>()`). -/
def u8QtoRgbQ (c : Nat × Nat × Nat) : ℚ × ℚ × ℚ :=
  ((c.1 : ℚ) / 255, (c.2.1 : ℚ) / 255, (c.2.2 : ℚ) / 255)

/-- Exact RGB to 8-bit RGB (`into_format::<u8>()`). -/
def rgbQtoU8 (c : ℚ × ℚ × ℚ) : Nat × Nat × Nat :=
  (u8scale c.1, u8scale c.2.1, u8scale c.2.2)

/-- `KeyboardState` (src/keyboard.rs:27-34): parallel `(hue, sat)` and
value arrays, the mode colour, and the scalar settings. -/
structure KeyboardState where
  colors : List (Nat × Nat) × List Nat
  color : Nat × Nat
  brightness : Nat
  effect : Nat
  speed : Nat
deriving DecidableEq

/-- A chroma `SET` report (src/keyboard.rs:119-126): the 32 payload
bytes `[0x07, 0x00, 0x01, offset, count, (h,s)×count, 0…]`. -/
def mkChromaReport (o : Nat) (ch : List (Nat × Nat)) : List Nat :=
  [7, 0, 1, o % 256, ch.length % 256] ++ (ch.map (fun p => [p.1, p.2])).flatten ++
    List.replicate (27 - 2 * ch.length) 0

/-- A brightness `SET` report (src/keyboard.rs:128-137): the 32 payload
bytes `[0x07, 0x00, 0x02, offset, count, v×count, 0…]`. -/
def mkBrightReport (o : Nat) (vs : List Nat) : List Nat :=
  [7, 0, 2, o % 256, vs.length % 256] ++ vs ++ List.replicate (27 - vs.length) 0

/-- `Keyboard::update_colors` (src/keyboard.rs:92-157), restricted to
its cached state and the reports it sends (the HID transmission itself
is fire-and-forget).  `none` models the early `Err` return of the
bounds check on src/keyboard.rs:98-100: no report is built and the state
is untouched.  The chunk sizes are `(32 − 5) / 2 = 13` chroma pairs and
`32 − 5 = 27` brightness bytes. -/
def update_colors (k : KeyboardState) (colors : List (ℚ × ℚ × ℚ)) (offset : Nat)
    ( with_brightness : Bool) : Option (KeyboardState × List (List Nat)) :=
  if offset + colors.length > k.colors.1.length then none
  else
    let hsv_colors := colors.map rgbQtoHsv8
    let brightness := hsv_colors.map (fun x => x.2.2)
    let chroma := hsv_colors.map (fun x => (x.1, x.2.1))
    let chroma_reports := (chunk_changed chroma 13 (k.colors.1.drop offset)).map
      (fun oc => mkChromaReport (oc.1 + offset) oc.2)
    let brightness_reports := (chunk_changed brightness 27 (k.colors.2.drop offset)).map
      (fun oc => mkBrightReport (oc.1 + offset) oc.2)
    some
      ({ k with colors :=
          (writeAt k.colors.1 offset chroma,
            if with_brightness then writeAt k.colors.2 offset brightness
            else k.colors.2) },
        chroma_reports ++ (if with_brightness then brightness_reports else []))

/-- `Keyboard::update_color` (src/keyboard.rs:174-189): convert the
8-bit RGB argument to 8-bit HSV and, when hue or saturation changed,
cache it and send `[0x07, 0x03, 0x04, hue, sat]`. -/
def update_color (k : KeyboardState) (rgb8 : Nat × Nat × Nat) :
    KeyboardState × List (List Nat) :=
  let hsv := rgbQtoHsv8 (u8QtoRgbQ rgb8)
  if hsv.1 ≠ k.color.1 ∨ hsv.2.1 ≠ k.color.2 then
    ({ k with color := (hsv.1, hsv.2.1) },
      [[7, 3, 4, hsv.1, hsv.2.1] ++ List.replicate 27 0])
  else (k, [])

/-- `Keyboard::update_effect` (src/keyboard.rs:198-209): when the effect
changed, cache it and send `[0x07, 0x03, 0x02, effect]`. -/
def update_effect (k : KeyboardState) (effect : Nat) : KeyboardState × List (List Nat) :=
  if effect ≠ k.effect then
    ({ k with effect := effect }, [[7, 3, 2, effect] ++ List.replicate 28 0])
  else (k, [])

/-- `Keyboard::update_speed` (src/keyboard.rs:215-226). -/
def update_speed (k : KeyboardState) (speed : Nat) : KeyboardState × List (List Nat) :=
  if speed ≠ k.speed then
    ({ k with speed := speed }, [[7, 3, 3, speed] ++ List.replicate 28 0])
  else (k, [])

/-- `Keyboard::update_brightness` (src/keyboard.rs:232-243). -/
def update_brightness (k : KeyboardState) (brightness : Nat) :
    KeyboardState × List (List Nat) :=
  if brightness ≠ k.brightness then
    ({ k with brightness := brightness }, [[7, 3, 1, brightness] ++ List.replicate 28 0])
  else (k, [])

/-- `Keyboard::load_state` (src/keyboard.rs:257-281): rebuild the RGB
list from the saved chroma/value pairs, the mode colour from the saved
`(hue, sat)` at value 255 (quantised to 8-bit RGB before the call, as on
src/keyboard.rs:271-276), then apply `update_colors`, `update_color`,
`update_effect`, `update_speed`, `update_brightness` in order. -/
def load_state (k saved : KeyboardState) ( with_brightness : Bool) :
    Option KeyboardState :=
  let colors := (saved.colors.1.zip saved.colors.2).map
    (fun p => hsvToRgbQ (hsvQofU8 p.1.1 p.1.2 p.2))
  let color := rgbQtoU8 (hsvToRgbQ (hsvQofU8 saved.color.1 saved.color.2 255))
  match update_colors k colors 0 with_brightness with
  | none => none
  | some (k1, _) =>
    some (update_brightness
      (update_speed
        (update_effect (update_color k1 color).1 saved.effect).1 saved.speed).1
      saved.brightness).1

/-- `save_state` then `load_state` (src/keyboard.rs:253-281):
`save_state` serialises the state with `serde_json` and `load_state`
parses it back; for this record of bounded naturals the JSON round trip
is exact, so serialisation is modelled as the identity and the round
trip applies `load_state` to the state itself. -/
def roundTrip (k : KeyboardState) ( with_brightness : Bool) : Option KeyboardState :=
  load_state k k with_brightness

/-- Claim C6: an `update_colors` call with `offset + len(rgb_list)`
exceeding the LED count returns the error before any report is built or
any cached state touched (the `none` branch precedes both in
`update_colors`), and a call satisfying the precondition never takes the
bounds-error branch.  The cached arrays have length `count_leds leds`
(the spec's `colors.*.length == count_leds()` invariant, established at
construction). -/
theorem update_colors_bounds (leds : List (Option (Nat × Nat × Nat)))
    (k : KeyboardState) (colors : List (ℚ × ℚ × ℚ)) (offset : Nat) (wb : Bool)
    (hlen : k.colors.1.length = count_leds leds) :
    (offset + colors.length > count_leds leds →
      update_colors k colors offset wb = none) ∧
    (offset + colors.length ≤ count_leds leds →
      ∃ r, update_colors k colors offset wb = some r) := by
  constructor
  · intro h
    unfold update_colors
    rw [if_pos (by omega)]
  · intro h
    unfold update_colors
    rw [if_neg (by omega)]
    exact ⟨_, rfl⟩

/-- Witness for C6: a one-LED device; writing one colour at offset 1 is
rejected, writing it at offset 0 is accepted. -/
theorem update_colors_bounds_witness :
    update_colors ⟨([(0, 0)], [255]), (0, 0), 0, 0, 0⟩ [(1, 0, 0)] 1 true = none ∧
    ∃ r, update_colors ⟨([(0, 0)], [255]), (0, 0), 0, 0, 0⟩ [(1, 0, 0)] 0 true = some r :=
  ⟨(update_colors_bounds [some (0, 0, 0)] _ _ 1 true (by decide)).1 (by decide),
    (update_colors_bounds [some (0, 0, 0)] _ _ 0 true (by decide)).2 (by decide)⟩

/-! ## `SetCustomMode` (`src/handlers.rs:213-223`) -/

/-- The `SetCustomMode` handler (src/handlers.rs:213-223): find the
first effect whose flags contain `HAS_PER_LED_COLOR`, cast its id `as
u8`, and hand it to `update_effect`; without such an effect nothing
happens. -/
def handle_set_custom_mode (effects : List (String × Int × Nat)) (k : KeyboardState) :
    KeyboardState × List (List Nat) :=
  match effects.find? (fun x => decide (x.2.2 &&& MODE_FLAG_HAS_PER_LED_COLOR ≠ 0)) with
  | some e => update_effect k (e.2.1 % 256).toNat
  | none => (k, [])

/-- Claim C7 (amended): `SetCustomMode` activates the first effect in
`Config.effects` order whose flags include `HAS_PER_LED_COLOR` and emits
exactly one report with payload head `[0x07, 0x03, 0x02, effect_id]` —
**provided** the effect differs from the cached current effect;
otherwise `update_effect` short-circuits and no report is emitted. -/
theorem set_custom_mode_spec (effects : List (String × Int × Nat)) (k : KeyboardState)
    (e : String × Int × Nat)
    (hfind : effects.find?
      (fun x => decide (x.2.2 &&& MODE_FLAG_HAS_PER_LED_COLOR ≠ 0)) = some e)
    (hne : (e.2.1 % 256).toNat ≠ k.effect) :
    handle_set_custom_mode effects k =
      ({ k with effect := (e.2.1 % 256).toNat },
        [[7, 3, 2, (e.2.1 % 256).toNat] ++ List.replicate 28 0]) := by
  unfold handle_set_custom_mode
  rw [hfind]
  show update_effect k (e.2.1 % 256).toNat = _
  unfold update_effect
  rw [if_pos hne]

/-- Witness for C7's amended theorem: a config with one per-LED effect
`("X", 5, flags = 32)` and a device currently on effect 0. -/
theorem set_custom_mode_spec_witness :
    handle_set_custom_mode [("X", (5 : Int), (32 : Nat))]
        ⟨([], []), (0, 0), 0, 0, 0⟩ =
      (⟨([], []), (0, 0), 0, 5, 0⟩, [[7, 3, 2, 5] ++ List.replicate 28 0]) :=
  set_custom_mode_spec [("X", (5 : Int), (32 : Nat))] ⟨([], []), (0, 0), 0, 0, 0⟩
    ("X", (5 : Int), (32 : Nat)) (by decide) (by decide)

/-- Counterexample for C7 as stated: the config does contain a per-LED
effect (id 5, flags 32), but the keyboard's cached effect is already 5,
so handling `SetCustomMode` emits *zero* reports, not exactly one. -/
theorem set_custom_mode_counterexample :
    (∃ e ∈ [("X", (5 : Int), (32 : Nat))], e.2.2 &&& MODE_FLAG_HAS_PER_LED_COLOR ≠ 0) ∧
    (handle_set_custom_mode [("X", (5 : Int), (32 : Nat))]
      ⟨([], []), (0, 0), 0, 5, 0⟩).2 = [] := by
  decide

theorem writeAt_self {α : Type} (b : List α) : writeAt b 0 b = b := by
  simp [writeAt]

theorem findDiffAux_self {α : Type} [DecidableEq α] (v : List α) :
    ∀ fuel off, findDiffAux v v fuel off = none := by
  intro fuel
  induction fuel with
  | zero => intro off; rfl
  | succ n ih =>
    intro off
    simp only [findDiffAux]
    split
    · rw [if_neg (by simp)]
      exact ih (off + 1)
    · rfl

theorem chunk_changed_self {α : Type} [DecidableEq α] (v : List α) (cs : Nat) :
    chunk_changed v cs v = [] := by
  have hnext : chunksNext v v cs 0 = none := by
    unfold chunksNext
    by_cases h : v.length ≤ 0
    · rw [if_pos h]
    · rw [if_neg h]
      unfold findDiffIdx
      rw [findDiffAux_self]
  unfold chunk_changed
  simp only [chunksFrom]
  rw [hnext]

theorem update_colors_cached_identity (k : KeyboardState)
    (hlen : k.colors.1.length = k.colors.2.length)
    (hfix : ∀ p ∈ k.colors.1.zip k.colors.2,
      rgbQtoHsv8 (hsvToRgbQ (hsvQofU8 p.1.1 p.1.2 p.2)) = (p.1.1, p.1.2, p.2)) :
    update_colors k
      ((k.colors.1.zip k.colors.2).map (fun p => hsvToRgbQ (hsvQofU8 p.1.1 p.1.2 p.2)))
      0 true = some (k, []) := by
  have hhsv : ((k.colors.1.zip k.colors.2).map
        (fun p => hsvToRgbQ (hsvQofU8 p.1.1 p.1.2 p.2))).map rgbQtoHsv8 =
      (k.colors.1.zip k.colors.2).map (fun p => (p.1.1, p.1.2, p.2)) := by
    rw [List.map_map]
    exact List.map_congr_left hfix
  have hchroma : (((k.colors.1.zip k.colors.2).map
        (fun p => hsvToRgbQ (hsvQofU8 p.1.1 p.1.2 p.2))).map rgbQtoHsv8).map
        (fun x => (x.1, x.2.1)) = k.colors.1 := by
    rw [hhsv, List.map_map]
    have hfun : ((fun x : Nat × Nat × Nat => (x.1, x.2.1)) ∘
        (fun p : (Nat × Nat) × Nat => (p.1.1, p.1.2, p.2))) =
        (fun p : (Nat × Nat) × Nat => p.1) := by
      funext p
      rfl
    rw [hfun]
    exact List.map_fst_zip _ _ (by omega)
  have hbright : (((k.colors.1.zip k.colors.2).map
        (fun p => hsvToRgbQ (hsvQofU8 p.1.1 p.1.2 p.2))).map rgbQtoHsv8).map
        (fun x => x.2.2) = k.colors.2 := by
    rw [hhsv, List.map_map]
    have hfun : ((fun x : Nat × Nat × Nat => x.2.2) ∘
        (fun p : (Nat × Nat) × Nat => (p.1.1, p.1.2, p.2))) =
        (fun p : (Nat × Nat) × Nat => p.2) := by
      funext p
      rfl
    rw [hfun]
    exact List.map_snd_zip _ _ (by omega)
  simp only [update_colors]
  rw [if_neg (by rw [List.length_map, List.length_zip]; omega)]
  rw [hchroma, hbright, List.drop_zero, List.drop_zero, chunk_changed_self,
    chunk_changed_self, writeAt_self, writeAt_self]
  rfl

/-- Claim C5 (amended): `save_state` followed by `load_state(·, true)`
restores the keyboard state exactly for every state whose per-LED
`(hue, sat, value)` triples and mode colour are fixed points of the
HSV→RGB→HSV conversion chain; for such states the effect, speed,
brightness and mode colour are restored unconditionally (their update
functions short-circuit on the unchanged value) and the colour arrays
are rewritten with their own content. -/
theorem roundTrip_fixed (k : KeyboardState)
    (hlen : k.colors.1.length = k.colors.2.length)
    (hfix : ∀ p ∈ k.colors.1.zip k.colors.2,
      rgbQtoHsv8 (hsvToRgbQ (hsvQofU8 p.1.1 p.1.2 p.2)) = (p.1.1, p.1.2, p.2))
    (hcol : ((rgbQtoHsv8 (u8QtoRgbQ (rgbQtoU8
        (hsvToRgbQ (hsvQofU8 k.color.1 k.color.2 255))))).1,
      (rgbQtoHsv8 (u8QtoRgbQ (rgbQtoU8
        (hsvToRgbQ (hsvQofU8 k.color.1 k.color.2 255))))).2.1) = k.color) :
    roundTrip k true = some k := by
  have hupd := update_colors_cached_identity k hlen hfix
  have hcolor : update_color k
      (rgbQtoU8 (hsvToRgbQ (hsvQofU8 k.color.1 k.color.2 255))) = (k, []) := by
    unfold update_color
    have h1 := congrArg Prod.fst hcol
    have h2 := congrArg Prod.snd hcol
    simp only at h1 h2
    rw [if_neg (by rw [h1, h2]; simp)]
  have heff : update_effect k k.effect = (k, []) := by
    unfold update_effect
    rw [if_neg (by simp)]
  have hspd : update_speed k k.speed = (k, []) := by
    unfold update_speed
    rw [if_neg (by simp)]
  have hbri : update_brightness k k.brightness = (k, []) := by
    unfold update_brightness
    rw [if_neg (by simp)]
  simp only [roundTrip, load_state]
  rw [hupd]
  simp only [hcolor, heff, hspd, hbri]

unseal Rat.mul Rat.add Rat.inv Rat.sub in
/-- Witness for C5's amended theorem: a one-LED keyboard whose LED is
black `((0,0), 0)` and whose mode colour is `(0, 0)` — both fixed points
of the conversion — with effect 3, speed 9, brightness 7. -/
theorem roundTrip_fixed_witness :
    roundTrip ⟨([(0, 0)], [0]), (0, 0), 7, 3, 9⟩ true =
      some ⟨([(0, 0)], [0]), (0, 0), 7, 3, 9⟩ :=
  roundTrip_fixed ⟨([(0, 0)], [0]), (0, 0), 7, 3, 9⟩ (by decide) (by decide) (by decide)

unseal Rat.mul Rat.add Rat.inv Rat.sub in
/-- Counterexample for C5 as stated: a LED whose cached chroma is
`(10, 20)` but whose value is `0` serialises to HSV `(10, 20, 0)`; the
reload converts it through RGB `(0, 0, 0)`, which collapses the chroma
to `(0, 0)` — the state after the round trip differs from the state
before it. -/
theorem roundTrip_counterexample :
    roundTrip ⟨([(10, 20)], [0]), (0, 0), 5, 1, 2⟩ true ≠
      some ⟨([(10, 20)], [0]), (0, 0), 5, 1, 2⟩ := by
  decide
